import Mathlib

/-!
Shallow embedding of the WebSocket chat server in `src/index.ts`.

The per-connection data is `ws.data.username` and `ws.data.rooms` (a
`Set<string>`); the broadcaster side is the set of topics the connection is
subscribed to via `ws.subscribe`/`ws.unsubscribe`.  Each handler of the
source is translated into a function producing its list of observable
effects in program order, and the state after a handler is the fold of
those effects over the state.
-/

/-- JavaScript `Set.add`: appends the element if absent, keeping insertion
order; adding a present element has no effect. -/
def setAdd (l : List String) (x : String) : List String :=
  if x ∈ l then l else l ++ [x]

/-- Per-connection state: the username (immutable after the upgrade), the
connection's joined-rooms set (`ws.data.rooms`, a JavaScript `Set` modelled
as its insertion-ordered duplicate-free element list), and the set of topics
the connection is currently subscribed to in the broadcaster. -/
structure ConnState where
  username : String
  rooms : List String
  subs : List String
deriving DecidableEq

/-- One observable step of a handler, in program order: broadcaster calls,
mutations of the connection's room set, direct sends and publishes. -/
inductive Effect where
  | subscribe (topic : String)
  | unsubscribe (topic : String)
  | addRoom (room : String)
  | removeRoom (room : String)
  | clearRooms
  | send (msg : String)
  | publish (topic msg : String)
deriving DecidableEq

/-- How one effect acts on the connection state; sends and publishes do not
change membership state. -/
def applyEffect (s : ConnState) : Effect → ConnState
  | Effect.subscribe t => { s with subs := setAdd s.subs t }
  | Effect.unsubscribe t => { s with subs := s.subs.erase t }
  | Effect.addRoom r => { s with rooms := setAdd s.rooms r }
  | Effect.removeRoom r => { s with rooms := s.rooms.erase r }
  | Effect.clearRooms => { s with rooms := [] }
  | Effect.send _ => s
  | Effect.publish _ _ => s

def applyEffects (s : ConnState) (effects : List Effect) : ConnState :=
  effects.foldl applyEffect s

/-- Effect trace of `joinRoom` (src/index.ts lines 24-38): subscribe to the
topic, add the room to the room set, confirm to the joiner, announce to the
room. -/
def joinRoomEffects (s : ConnState) (roomName : String) : List Effect :=
  [Effect.subscribe roomName,
   Effect.addRoom roomName,
   Effect.send ("You have joined room: " ++ roomName),
   Effect.publish roomName (s.username ++ " has joined the room")]

def joinRoom (s : ConnState) (roomName : String) : ConnState :=
  applyEffects s (joinRoomEffects s roomName)

/-- Effect trace of `leaveRoom` (lines 43-63): guarded on membership of the
room set; on the error branch only the warning reply is sent. -/
def leaveRoomEffects (s : ConnState) (roomName : String) : List Effect :=
  if roomName ∉ s.rooms then
    [Effect.send ("You are not in room " ++ roomName)]
  else
    [Effect.unsubscribe roomName,
     Effect.removeRoom roomName,
     Effect.send ("You have left room: " ++ roomName),
     Effect.publish roomName (s.username ++ " has left the room")]

def leaveRoom (s : ConnState) (roomName : String) : ConnState :=
  applyEffects s (leaveRoomEffects s roomName)

/-- Effect trace of the `close` hook (lines 198-214): for every room of the
room set publish the disconnect announcement then unsubscribe, finally clear
the room set. -/
def closeEffects (s : ConnState) : List Effect :=
  ((s.rooms.map fun r =>
      [Effect.publish r (s.username ++ " has left the room (disconnected)"),
       Effect.unsubscribe r]).flatten)
    ++ [Effect.clearRooms]

def closeConn (s : ConnState) : ConnState :=
  applyEffects s (closeEffects s)

/-- JavaScript `str.split(' ')` on the character list: split at every single
space character, keeping empty fragments; always returns at least one
fragment. -/
def splitSpAux : List Char → List Char → List (List Char)
  | [], acc => [acc.reverse]
  | c :: cs, acc =>
      if c = ' ' then acc.reverse :: splitSpAux cs []
      else splitSpAux cs (c :: acc)

def splitOnSpace (s : String) : List String :=
  (splitSpAux s.data []).map String.mk

/-- JavaScript `arr.join(sep)`. -/
def joinSep (sep : String) : List String → String
  | [] => ""
  | [a] => a
  | a :: rest => a ++ sep ++ joinSep sep rest

/-- Character-list version of `joinSep " "`, used in proofs about the
command grammar. -/
def joinSpL : List (List Char) → List Char
  | [] => []
  | [a] => a
  | a :: rest => a ++ ' ' :: joinSpL rest

/-- JavaScript `toLowerCase`, on the ASCII range. -/
def toLowerStr (s : String) : String :=
  String.mk (s.data.map Char.toLower)

/-- The membership-guarded part of the `room` command (lines 148-160):
either the not-in-room guidance reply or the formatted broadcast. -/
def room_message (s : ConnState) (roomName text : String) : List Effect :=
  if roomName ∉ s.rooms then
    [Effect.send ("You are not in room " ++ roomName
      ++ ". Join it first with /join " ++ roomName)]
  else
    [Effect.publish roomName
      ("[" ++ roomName ++ "] " ++ s.username ++ ": " ++ text)]

/-- The `room` case of the message handler (lines 136-161): argument
extraction, validation, then the guarded broadcast. -/
def roomCommand (s : ConnState) (args : List String) : List Effect :=
  let roomName := args.headD ""
  let roomMessage := joinSep " " args.tail
  if roomName = "" ∨ roomMessage = "" then
    [Effect.send "Please specify a room name and message: /room [room] [message]"]
  else
    room_message s roomName roomMessage

/-- The `switch` over the lowercased command token (lines 115-189); the
unknown-command reply echoes the original, unlowered token. -/
def dispatch (s : ConnState) (command : String) (args : List String) : List Effect :=
  if toLowerStr command = "join" then
    let roomName := args.headD ""
    if roomName = "" then [Effect.send "Please specify a room name: /join [room]"]
    else joinRoomEffects s roomName
  else if toLowerStr command = "leave" then
    let roomName := args.headD ""
    if roomName = "" then [Effect.send "Please specify a room name: /leave [room]"]
    else leaveRoomEffects s roomName
  else if toLowerStr command = "room" then
    roomCommand s args
  else if toLowerStr command = "rooms" then
    [Effect.send "To join a room, use: /join [room]"]
  else if toLowerStr command = "myrooms" then
    if s.rooms = [] then
      [Effect.send "You have not joined any rooms. Join one with /join [room]"]
    else
      [Effect.send ("Your rooms:\n" ++ joinSep "\n" s.rooms)]
  else
    [Effect.send ("Unknown command: " ++ command
      ++ ". Available commands: /join, /leave, /room, /rooms, /myrooms")]

/-- The `message` hook (lines 108-194): a leading slash starts a command
line; `slice(1)` and `split(' ')` are modelled on the character list; any
other message is echoed back to the sender with the username prefix. -/
def handleMessage (s : ConnState) (m : String) : List Effect :=
  match m.data with
  | '/' :: rest =>
      let parts := splitOnSpace (String.mk rest)
      dispatch s (parts.headD "") parts.tail
  | _ => [Effect.send (s.username ++ ": " ++ m)]

/-- The command token the code switches on: the text of the message after
the leading slash up to the first space character, lowercased. -/
def commandName (m : String) : String :=
  toLowerStr ((splitOnSpace (String.mk m.data.tail)).headD "")

/-- Stated from the spec wording of the command grammar, for comparison
with `commandName`: the first whitespace-delimited token after the leading
slash, lowercased. -/
def specWsCommandName (m : String) : String :=
  toLowerStr (String.mk (m.data.tail.takeWhile (fun c => !c.isWhitespace)))

/-- `getUsernameFromReq` (lines 8-11): the `username` query parameter when
present, with JavaScript `||` falling back to Anonymous on null and on the
empty string alike. -/
def getUsernameFromReq (usernameParam : Option String) : String :=
  match usernameParam with
  | none => "Anonymous"
  | some u => if u = "" then "Anonymous" else u

/-- A fresh connection as built by the upgrade handler: the resolved
username and an empty room set (and no subscriptions yet). -/
def initConn (username : String) : ConnState :=
  { username := username, rooms := [], subs := [] }

/-- The membership-changing operations a connection can undergo. -/
inductive Op where
  | join (room : String)
  | leave (room : String)
  | close
deriving DecidableEq

def applyOp (s : ConnState) : Op → ConnState
  | Op.join r => joinRoom s r
  | Op.leave r => leaveRoom s r
  | Op.close => closeConn s

def runOps (s : ConnState) (ops : List Op) : ConnState :=
  ops.foldl applyOp s

/-- Example state: a fresh connection. -/
def connAlice : ConnState := initConn "alice"

/-- Example state: a connection that has joined the lobby room. -/
def connLobby : ConnState :=
  { username := "alice", rooms := ["lobby"], subs := ["lobby"] }

theorem applyEffects_append (s : ConnState) (l1 l2 : List Effect) :
    applyEffects s (l1 ++ l2) = applyEffects (applyEffects s l1) l2 := by
  simp [applyEffects]

theorem joinRoom_eq (s : ConnState) (r : String) :
    joinRoom s r = { s with rooms := setAdd s.rooms r, subs := setAdd s.subs r } := rfl

theorem leaveRoom_eq_of_mem (s : ConnState) (r : String) (h : r ∈ s.rooms) :
    leaveRoom s r = { s with rooms := s.rooms.erase r, subs := s.subs.erase r } := by
  unfold leaveRoom leaveRoomEffects
  rw [if_neg (not_not_intro h)]
  rfl

theorem leaveRoom_eq_of_not_mem (s : ConnState) (r : String) (h : r ∉ s.rooms) :
    leaveRoom s r = s := by
  unfold leaveRoom leaveRoomEffects
  rw [if_pos h]
  rfl

theorem setAdd_self_of_mem (l : List String) (x : String) (h : x ∈ l) :
    setAdd l x = l := by
  unfold setAdd
  rw [if_pos h]

theorem setAdd_nodup (l : List String) (x : String) (h : l.Nodup) :
    (setAdd l x).Nodup := by
  unfold setAdd
  split
  · exact h
  · rw [← List.concat_eq_append]
    exact List.Nodup.concat (by assumption) h

theorem applyEffects_pubUnsub (msg : String) (l : List String) :
    ∀ s : ConnState,
      applyEffects s
          ((l.map fun r => [Effect.publish r msg, Effect.unsubscribe r]).flatten)
        = { s with subs := l.foldl List.erase s.subs } := by
  induction l with
  | nil => intro s; rfl
  | cons a t ih =>
      intro s
      have h1 : ((a :: t).map fun r => [Effect.publish r msg, Effect.unsubscribe r]).flatten
          = [Effect.publish a msg, Effect.unsubscribe a]
            ++ (t.map fun r => [Effect.publish r msg, Effect.unsubscribe r]).flatten := rfl
      rw [h1, applyEffects_append]
      have h2 : applyEffects s [Effect.publish a msg, Effect.unsubscribe a]
          = { s with subs := s.subs.erase a } := rfl
      rw [h2, ih]
      rfl

theorem closeConn_eq (s : ConnState) :
    closeConn s = { s with rooms := [], subs := s.rooms.foldl List.erase s.subs } := by
  unfold closeConn closeEffects
  rw [applyEffects_append, applyEffects_pubUnsub]
  rfl

theorem foldl_erase_eq_nil :
    ∀ (l t : List String), t.Nodup → (∀ x ∈ t, x ∈ l) →
      l.foldl List.erase t = [] := by
  intro l
  induction l with
  | nil =>
      intro t _ hsub
      exact List.eq_nil_iff_forall_not_mem.mpr fun a ha => by simpa using hsub a ha
  | cons a u ih =>
      intro t hnd hsub
      rw [List.foldl_cons]
      refine ih (t.erase a) (hnd.erase a) ?_
      intro x hx
      rcases (List.Nodup.mem_erase_iff hnd).mp hx with ⟨hne, hxt⟩
      rcases List.mem_cons.mp (hsub x hxt) with h1 | h2
      · exact absurd h1 hne
      · exact h2

theorem applyOp_preserves (s : ConnState) (op : Op)
    (h1 : s.rooms = s.subs) (h2 : s.rooms.Nodup) :
    (applyOp s op).rooms = (applyOp s op).subs ∧ (applyOp s op).rooms.Nodup := by
  cases op with
  | join r =>
      show (joinRoom s r).rooms = (joinRoom s r).subs ∧ (joinRoom s r).rooms.Nodup
      rw [joinRoom_eq]
      exact ⟨by rw [h1], setAdd_nodup _ _ h2⟩
  | leave r =>
      show (leaveRoom s r).rooms = (leaveRoom s r).subs ∧ (leaveRoom s r).rooms.Nodup
      by_cases hm : r ∈ s.rooms
      · rw [leaveRoom_eq_of_mem s r hm]
        exact ⟨by rw [h1], h2.erase r⟩
      · rw [leaveRoom_eq_of_not_mem s r hm]
        exact ⟨h1, h2⟩
  | close =>
      show (closeConn s).rooms = (closeConn s).subs ∧ (closeConn s).rooms.Nodup
      rw [closeConn_eq]
      refine ⟨?_, List.nodup_nil⟩
      have : s.rooms.foldl List.erase s.subs = [] := by
        refine foldl_erase_eq_nil s.rooms s.subs (h1 ▸ h2) ?_
        intro x hx
        rw [h1]
        exact hx
      rw [this]

theorem runOps_preserves :
    ∀ (ops : List Op) (s : ConnState), s.rooms = s.subs → s.rooms.Nodup →
      (runOps s ops).rooms = (runOps s ops).subs ∧ (runOps s ops).rooms.Nodup := by
  intro ops
  induction ops with
  | nil => intro s h1 h2; exact ⟨h1, h2⟩
  | cons op t ih =>
      intro s h1 h2
      have hstep : runOps s (op :: t) = runOps (applyOp s op) t := rfl
      rw [hstep]
      rcases applyOp_preserves s op h1 h2 with ⟨g1, g2⟩
      exact ih (applyOp s op) g1 g2

theorem runOps_append (s : ConnState) (l1 l2 : List Op) :
    runOps s (l1 ++ l2) = runOps (runOps s l1) l2 := by
  simp [runOps]

theorem splitSpAux_exists_cons :
    ∀ (cs acc : List Char), ∃ b bs, splitSpAux cs acc = b :: bs := by
  intro cs
  induction cs with
  | nil => intro acc; exact ⟨acc.reverse, [], rfl⟩
  | cons c t ih =>
      intro acc
      by_cases hc : c = ' '
      · exact ⟨acc.reverse, splitSpAux t [], by simp [splitSpAux, hc]⟩
      · have h1 : splitSpAux (c :: t) acc = splitSpAux t (c :: acc) := by
          simp [splitSpAux, hc]
        rw [h1]
        exact ih (c :: acc)

theorem joinSpL_cons (x : List Char) (l : List (List Char)) (h : l ≠ []) :
    joinSpL (x :: l) = x ++ ' ' :: joinSpL l := by
  cases l with
  | nil => exact absurd rfl h
  | cons b bs => rfl

theorem joinSpL_splitSpAux :
    ∀ (cs acc : List Char), joinSpL (splitSpAux cs acc) = acc.reverse ++ cs := by
  intro cs
  induction cs with
  | nil => intro acc; simp [splitSpAux, joinSpL]
  | cons c t ih =>
      intro acc
      by_cases hc : c = ' '
      · have h1 : splitSpAux (c :: t) acc = acc.reverse :: splitSpAux t [] := by
          simp [splitSpAux, hc]
        rcases splitSpAux_exists_cons t [] with ⟨b, bs, hb⟩
        rw [h1, joinSpL_cons _ _ (by rw [hb]; exact List.cons_ne_nil b bs), ih []]
        simp [hc]
      · have h1 : splitSpAux (c :: t) acc = splitSpAux t (c :: acc) := by
          simp [splitSpAux, hc]
        rw [h1, ih (c :: acc)]
        simp

theorem splitSpAux_headD :
    ∀ (cs acc : List Char),
      (splitSpAux cs acc).headD [] = acc.reverse ++ cs.takeWhile (fun c => !(c == ' ')) := by
  intro cs
  induction cs with
  | nil => intro acc; simp [splitSpAux]
  | cons c t ih =>
      intro acc
      by_cases hc : c = ' '
      · simp [splitSpAux, hc, List.takeWhile]
      · have h1 : splitSpAux (c :: t) acc = splitSpAux t (c :: acc) := by
          simp [splitSpAux, hc]
        have hcb : (c == ' ') = false := beq_eq_false_iff_ne.mpr hc
        have h2 : (c :: t).takeWhile (fun c => !(c == ' ')) =
            c :: t.takeWhile (fun c => !(c == ' ')) := by
          simp [List.takeWhile, hcb]
        rw [h1, ih (c :: acc), h2]
        simp

theorem joinSep_map_mk :
    ∀ l : List (List Char), joinSep " " (l.map String.mk) = String.mk (joinSpL l) := by
  intro l
  induction l with
  | nil => rfl
  | cons a t ih =>
      cases t with
      | nil => rfl
      | cons b bs =>
          have h1 : joinSep " " ((a :: b :: bs).map String.mk)
              = String.mk a ++ " " ++ joinSep " " ((b :: bs).map String.mk) := rfl
          have h2 : joinSpL (a :: b :: bs) = a ++ ' ' :: joinSpL (b :: bs) := rfl
          rw [h1, h2, ih]
          show String.mk ((a ++ [' ']) ++ joinSpL (b :: bs)) = _
          rw [List.append_assoc]
          rfl

theorem joinSep_splitOnSpace (s : String) : joinSep " " (splitOnSpace s) = s := by
  unfold splitOnSpace
  rw [joinSep_map_mk, joinSpL_splitSpAux]
  rfl

theorem splitOnSpace_headD (s : String) :
    (splitOnSpace s).headD "" = String.mk (s.data.takeWhile (fun c => !(c == ' '))) := by
  unfold splitOnSpace
  rcases splitSpAux_exists_cons s.data [] with ⟨b, bs, hb⟩
  have h1 := splitSpAux_headD s.data []
  rw [hb] at h1
  simp only [List.headD_cons] at h1
  rw [hb]
  simp only [List.map_cons, List.headD_cons]
  rw [h1]
  rfl

/-- C2: for a connection with username `s.username`, `joinRoom` performs
exactly these effects in this order: subscribe to the topic, add the room to
the room set, send the join confirmation directly to the connection, publish
the join announcement to the room; the resulting state holds the room in
both views. -/
theorem joinRoom_effects_order (s : ConnState) (R : String) :
    joinRoomEffects s R =
      [Effect.subscribe R,
       Effect.addRoom R,
       Effect.send ("You have joined room: " ++ R),
       Effect.publish R (s.username ++ " has joined the room")]
    ∧ joinRoom s R = { s with rooms := setAdd s.rooms R, subs := setAdd s.subs R } :=
  ⟨rfl, rfl⟩

/-- C3: `leaveRoom` on a room that is not in the connection's room set sends
only the warning reply, publishes nothing, and leaves the whole state (room
set and subscriptions) unchanged. -/
theorem leaveRoom_not_member (s : ConnState) (R : String) (h : R ∉ s.rooms) :
    leaveRoomEffects s R = [Effect.send ("You are not in room " ++ R)]
    ∧ leaveRoom s R = s := by
  have he : leaveRoomEffects s R = [Effect.send ("You are not in room " ++ R)] := by
    unfold leaveRoomEffects
    rw [if_pos h]
  exact ⟨he, leaveRoom_eq_of_not_mem s R h⟩

theorem leaveRoom_not_member_witness :
    leaveRoomEffects connAlice "lobby" = [Effect.send ("You are not in room " ++ "lobby")]
    ∧ leaveRoom connAlice "lobby" = connAlice :=
  leaveRoom_not_member connAlice "lobby" (by decide)

/-- C4: `room_message` publishes the formatted message to the room exactly
when the room is in the connection's room set; otherwise it sends only the
guidance reply and changes no state. -/
theorem room_message_guard (s : ConnState) (R T : String) (_hT : T ≠ "") :
    (Effect.publish R ("[" ++ R ++ "] " ++ s.username ++ ": " ++ T) ∈ room_message s R T
      ↔ R ∈ s.rooms)
    ∧ (R ∈ s.rooms →
        room_message s R T
          = [Effect.publish R ("[" ++ R ++ "] " ++ s.username ++ ": " ++ T)])
    ∧ (R ∉ s.rooms →
        room_message s R T
            = [Effect.send ("You are not in room " ++ R ++ ". Join it first with /join " ++ R)]
        ∧ applyEffects s (room_message s R T) = s) := by
  by_cases hm : R ∈ s.rooms
  · have he : room_message s R T
        = [Effect.publish R ("[" ++ R ++ "] " ++ s.username ++ ": " ++ T)] := by
      unfold room_message
      rw [if_neg (not_not_intro hm)]
    refine ⟨?_, fun _ => he, fun hc => absurd hm hc⟩
    rw [he]
    simp [hm]
  · have he : room_message s R T
        = [Effect.send ("You are not in room " ++ R ++ ". Join it first with /join " ++ R)] := by
      unfold room_message
      rw [if_pos hm]
    refine ⟨?_, fun hc => absurd hc hm, fun _ => ⟨he, by rw [he]; rfl⟩⟩
    rw [he]
    simp [hm]

theorem room_message_guard_witness :
    room_message connLobby "lobby" "hi"
      = [Effect.publish "lobby" ("[" ++ "lobby" ++ "] " ++ connLobby.username ++ ": " ++ "hi")]
    ∧ room_message connAlice "lobby" "hi"
      = [Effect.send ("You are not in room " ++ "lobby" ++ ". Join it first with /join " ++ "lobby")]
    ∧ applyEffects connAlice (room_message connAlice "lobby" "hi") = connAlice :=
  ⟨(room_message_guard connLobby "lobby" "hi" (by decide)).2.1 (by decide),
   ((room_message_guard connAlice "lobby" "hi" (by decide)).2.2 (by decide)).1,
   ((room_message_guard connAlice "lobby" "hi" (by decide)).2.2 (by decide)).2⟩

/-- C7: a second join of an already-joined (and hence already-subscribed)
room leaves the state unchanged, yet the join confirmation and the join
announcement are still among the produced effects. -/
theorem join_idempotent_state (s : ConnState) (R : String)
    (hr : R ∈ s.rooms) (hs : R ∈ s.subs) :
    joinRoom s R = s
    ∧ Effect.send ("You have joined room: " ++ R) ∈ joinRoomEffects s R
    ∧ Effect.publish R (s.username ++ " has joined the room") ∈ joinRoomEffects s R := by
  refine ⟨?_, by simp [joinRoomEffects], by simp [joinRoomEffects]⟩
  rw [joinRoom_eq, setAdd_self_of_mem _ _ hr, setAdd_self_of_mem _ _ hs]

theorem join_idempotent_state_witness :
    joinRoom connLobby "lobby" = connLobby
    ∧ Effect.send ("You have joined room: " ++ "lobby") ∈ joinRoomEffects connLobby "lobby"
    ∧ Effect.publish "lobby" (connLobby.username ++ " has joined the room")
        ∈ joinRoomEffects connLobby "lobby" :=
  join_idempotent_state connLobby "lobby" (by decide) (by decide)

/-- C9: a message whose first character is not a slash is echoed back to the
sender as username-colon-message, and nothing else is sent or published. -/
theorem echo_non_command (s : ConnState) (m : String) (h : m.data.head? ≠ some '/') :
    handleMessage s m = [Effect.send (s.username ++ ": " ++ m)] := by
  unfold handleMessage
  split
  · rename_i rest heq
    rw [heq] at h
    simp at h
  · rfl

theorem echo_non_command_witness :
    handleMessage connAlice "hello" = [Effect.send (connAlice.username ++ ": " ++ "hello")] :=
  echo_non_command connAlice "hello" (by decide)

/-- C10: an empty username query parameter resolves to Anonymous exactly
like an absent one, and the resolved username is never the empty string. -/
theorem username_empty_default :
    getUsernameFromReq (some "") = "Anonymous"
    ∧ getUsernameFromReq (some "") = getUsernameFromReq none
    ∧ ∀ q : Option String, getUsernameFromReq q ≠ "" := by
  refine ⟨rfl, rfl, ?_⟩
  intro q
  cases q with
  | none => decide
  | some u =>
      show (if u = "" then "Anonymous" else u) ≠ ""
      by_cases hu : u = ""
      · rw [if_pos hu]; decide
      · rw [if_neg hu]; exact hu

theorem username_empty_default_witness :
    getUsernameFromReq (some "") = "Anonymous" :=
  username_empty_default.1

theorem setAdd_mem_self (l : List String) (x : String) : x ∈ setAdd l x := by
  unfold setAdd
  split
  · assumption
  · simp

/-- C1: starting from a fresh connection, after any sequence of join, leave
and close operations a room is in the connection's room set exactly when the
connection is subscribed to that topic; moreover after a further join the
room is in both views, and after a further leave it is in neither
(unconditionally, hence in particular for a successful leave). -/
theorem rooms_subs_invariant (u : String) (ops : List Op) (R : String) :
    (∀ r, r ∈ (runOps (initConn u) ops).rooms ↔ r ∈ (runOps (initConn u) ops).subs)
    ∧ (R ∈ (runOps (initConn u) (ops ++ [Op.join R])).rooms
        ∧ R ∈ (runOps (initConn u) (ops ++ [Op.join R])).subs)
    ∧ (R ∉ (runOps (initConn u) (ops ++ [Op.leave R])).rooms
        ∧ R ∉ (runOps (initConn u) (ops ++ [Op.leave R])).subs) := by
  rcases runOps_preserves ops (initConn u) rfl List.nodup_nil with ⟨hinv, hnd⟩
  refine ⟨fun r => by rw [hinv], ?_, ?_⟩
  · rw [runOps_append]
    have hstep : runOps (runOps (initConn u) ops) [Op.join R]
        = joinRoom (runOps (initConn u) ops) R := rfl
    rw [hstep, joinRoom_eq]
    exact ⟨setAdd_mem_self _ _, setAdd_mem_self _ _⟩
  · rw [runOps_append]
    have hstep : runOps (runOps (initConn u) ops) [Op.leave R]
        = leaveRoom (runOps (initConn u) ops) R := rfl
    rw [hstep]
    by_cases hm : R ∈ (runOps (initConn u) ops).rooms
    · rw [leaveRoom_eq_of_mem _ _ hm]
      constructor
      · exact fun hx => ((List.Nodup.mem_erase_iff hnd).mp hx).1 rfl
      · exact fun hx => ((List.Nodup.mem_erase_iff (hinv ▸ hnd)).mp hx).1 rfl
    · rw [leaveRoom_eq_of_not_mem _ _ hm]
      refine ⟨hm, fun hx => hm ?_⟩
      rw [hinv]
      exact hx

theorem rooms_subs_invariant_witness :
    ("lobby" ∈ (runOps (initConn "alice") ([] ++ [Op.join "lobby"])).rooms
      ∧ "lobby" ∈ (runOps (initConn "alice") ([] ++ [Op.join "lobby"])).subs)
    ∧ ("lobby" ∉ (runOps (initConn "alice") ([] ++ [Op.leave "lobby"])).rooms
      ∧ "lobby" ∉ (runOps (initConn "alice") ([] ++ [Op.leave "lobby"])).subs) :=
  ⟨(rooms_subs_invariant "alice" [] "lobby").2.1,
   (rooms_subs_invariant "alice" [] "lobby").2.2⟩

/-- C5: the close hook publishes the disconnect announcement and then
unsubscribes, in that order, for every joined room; afterwards the room set
is empty; and no direct send to the closing connection occurs. -/
theorem close_behavior (s : ConnState) :
    (∀ R, R ∈ s.rooms →
      List.Sublist
        [Effect.publish R (s.username ++ " has left the room (disconnected)"),
         Effect.unsubscribe R]
        (closeEffects s))
    ∧ (closeConn s).rooms = []
    ∧ (∀ m, Effect.send m ∉ closeEffects s) := by
  refine ⟨?_, by rw [closeConn_eq], ?_⟩
  · intro R hR
    have hmem : [Effect.publish R (s.username ++ " has left the room (disconnected)"),
        Effect.unsubscribe R]
        ∈ s.rooms.map (fun r =>
          [Effect.publish r (s.username ++ " has left the room (disconnected)"),
           Effect.unsubscribe r]) :=
      List.mem_map_of_mem _ hR
    have hsub := List.sublist_flatten_of_mem hmem
    exact hsub.trans (List.sublist_append_left _ _)
  · intro m hm
    unfold closeEffects at hm
    rcases List.mem_append.mp hm with h1 | h2
    · rcases List.mem_flatten.mp h1 with ⟨l, hl, hml⟩
      rcases List.mem_map.mp hl with ⟨r, _, rfl⟩
      simp at hml
    · simp at h2

theorem close_behavior_witness :
    List.Sublist
      [Effect.publish "lobby" (connLobby.username ++ " has left the room (disconnected)"),
       Effect.unsubscribe "lobby"]
      (closeEffects connLobby) :=
  (close_behavior connLobby).1 "lobby" (by decide)

/-- C8: each invalid command input gets exactly the specified reply and
changes no state: join and leave with a missing (or empty) room argument,
room with a missing room or empty message, and any unrecognized command,
whose reply echoes the original command token. -/
theorem invalid_command_replies (s : ConnState) (cmd : String) (args : List String) :
    (args.headD "" = "" →
      dispatch s "join" args = [Effect.send "Please specify a room name: /join [room]"]
      ∧ applyEffects s (dispatch s "join" args) = s)
    ∧ (args.headD "" = "" →
      dispatch s "leave" args = [Effect.send "Please specify a room name: /leave [room]"]
      ∧ applyEffects s (dispatch s "leave" args) = s)
    ∧ (args.headD "" = "" ∨ joinSep " " args.tail = "" →
      dispatch s "room" args
          = [Effect.send "Please specify a room name and message: /room [room] [message]"]
      ∧ applyEffects s (dispatch s "room" args) = s)
    ∧ (toLowerStr cmd ∉ (["join", "leave", "room", "rooms", "myrooms"] : List String) →
      dispatch s cmd args
          = [Effect.send ("Unknown command: " ++ cmd
              ++ ". Available commands: /join, /leave, /room, /rooms, /myrooms")]
      ∧ applyEffects s (dispatch s cmd args) = s) := by
  have hj : toLowerStr "join" = "join" := by decide
  have hl : toLowerStr "leave" = "leave" := by decide
  have hr : toLowerStr "room" = "room" := by decide
  refine ⟨fun h => ?_, fun h => ?_, fun h => ?_, fun h => ?_⟩
  · have hd : dispatch s "join" args
        = [Effect.send "Please specify a room name: /join [room]"] := by
      unfold dispatch
      rw [hj, if_pos rfl]
      show (if args.headD "" = "" then _ else _) = _
      rw [if_pos h]
    exact ⟨hd, by rw [hd]; rfl⟩
  · have hd : dispatch s "leave" args
        = [Effect.send "Please specify a room name: /leave [room]"] := by
      unfold dispatch
      rw [hl]
      rw [if_neg (by decide : ¬ ("leave" = "join")), if_pos rfl]
      show (if args.headD "" = "" then _ else _) = _
      rw [if_pos h]
    exact ⟨hd, by rw [hd]; rfl⟩
  · have hd : dispatch s "room" args
        = [Effect.send "Please specify a room name and message: /room [room] [message]"] := by
      unfold dispatch
      rw [hr]
      rw [if_neg (by decide : ¬ ("room" = "join")),
        if_neg (by decide : ¬ ("room" = "leave")), if_pos rfl]
      unfold roomCommand
      show (if args.headD "" = "" ∨ joinSep " " args.tail = "" then _ else _) = _
      rw [if_pos h]
    exact ⟨hd, by rw [hd]; rfl⟩
  · have h1 : toLowerStr cmd ≠ "join" := fun hx => h (by rw [hx]; decide)
    have h2 : toLowerStr cmd ≠ "leave" := fun hx => h (by rw [hx]; decide)
    have h3 : toLowerStr cmd ≠ "room" := fun hx => h (by rw [hx]; decide)
    have h4 : toLowerStr cmd ≠ "rooms" := fun hx => h (by rw [hx]; decide)
    have h5 : toLowerStr cmd ≠ "myrooms" := fun hx => h (by rw [hx]; decide)
    have hd : dispatch s cmd args
        = [Effect.send ("Unknown command: " ++ cmd
            ++ ". Available commands: /join, /leave, /room, /rooms, /myrooms")] := by
      unfold dispatch
      rw [if_neg h1, if_neg h2, if_neg h3, if_neg h4, if_neg h5]
    exact ⟨hd, by rw [hd]; rfl⟩

theorem invalid_command_replies_witness :
    dispatch connAlice "join" [] = [Effect.send "Please specify a room name: /join [room]"]
    ∧ dispatch connAlice "leave" [] = [Effect.send "Please specify a room name: /leave [room]"]
    ∧ dispatch connAlice "room" []
        = [Effect.send "Please specify a room name and message: /room [room] [message]"]
    ∧ dispatch connAlice "foo" []
        = [Effect.send ("Unknown command: " ++ "foo"
            ++ ". Available commands: /join, /leave, /room, /rooms, /myrooms")] :=
  ⟨((invalid_command_replies connAlice "foo" []).1 rfl).1,
   ((invalid_command_replies connAlice "foo" []).2.1 rfl).1,
   ((invalid_command_replies connAlice "foo" []).2.2.1 (Or.inl rfl)).1,
   ((invalid_command_replies connAlice "foo" []).2.2.2 (by decide)).1⟩

/-- C6 counterexample: the code tokenizes on the space character only, not
on general whitespace.  On the message with a tab separator the code's
command token is the whole text after the slash, not the first
whitespace-delimited token, and the handler answers with the
unknown-command reply instead of dispatching a join. -/
theorem commandName_whitespace_cex :
    commandName "/join\tlobby" ≠ specWsCommandName "/join\tlobby"
    ∧ specWsCommandName "/join\tlobby" = "join"
    ∧ commandName "/join\tlobby" = "join\tlobby"
    ∧ handleMessage connAlice "/join\tlobby"
        = [Effect.send "Unknown command: join\tlobby. Available commands: /join, /leave, /room, /rooms, /myrooms"] :=
  ⟨by decide, by decide, by decide, by decide⟩

/-- C6 amended: for a command line, the command name is the text after the
leading slash up to the first space character (the delimiter is the single
space, not general whitespace), lowercased before matching so that known
commands are matched case-insensitively; the arguments are the space-split
fragments of the remainder with empty fragments preserved; and rejoining
the fragments after the command token with single spaces reproduces the
remainder of the line verbatim, which for the room command makes the
rejoined message body verbatim. -/
theorem command_grammar_space_delimited (s : ConnState) (rest : String) :
    handleMessage s ("/" ++ rest)
      = dispatch s ((splitOnSpace rest).headD "") (splitOnSpace rest).tail
    ∧ (splitOnSpace rest).headD ""
      = String.mk (rest.data.takeWhile (fun c => !(c == ' ')))
    ∧ joinSep " " (splitOnSpace rest) = rest
    ∧ (∀ cmd as, splitOnSpace rest = cmd :: as → as ≠ [] →
        cmd ++ " " ++ joinSep " " as = rest)
    ∧ (∀ cmd args, toLowerStr cmd = "join" →
        dispatch s cmd args = dispatch s "join" args) := by
  refine ⟨rfl, splitOnSpace_headD rest, joinSep_splitOnSpace rest, ?_, ?_⟩
  · intro cmd as hsplit hne
    have h3 := joinSep_splitOnSpace rest
    rw [hsplit] at h3
    cases as with
    | nil => exact absurd rfl hne
    | cons b bs => exact h3
  · intro cmd args hcmd
    have hj : toLowerStr "join" = "join" := by decide
    unfold dispatch
    rw [hcmd, hj, if_pos rfl, if_pos rfl]

theorem command_grammar_space_delimited_witness :
    "room" ++ " " ++ joinSep " " ["lobby", "hi"] = "room lobby hi"
    ∧ dispatch connAlice "JOIN" [] = dispatch connAlice "join" [] :=
  ⟨(command_grammar_space_delimited connAlice "room lobby hi").2.2.2.1
      "room" ["lobby", "hi"] (by decide) (by decide),
   (command_grammar_space_delimited connAlice "room lobby hi").2.2.2.2
      "JOIN" [] (by decide)⟩
